import Mathlib

/-!
Formal model of `errgroup.go` (package `errgroup`, linka.cloud fork).

The Go code is concurrent; we embed it as a small-step transition system over
an explicit group state.  Each public operation of the `Group` interface, and
the completion of a running subtask goroutine, is an `Event`.  A trace is a
list of events; `runEvents` executes a trace, failing (returning `none`) when
an event would block (a `Go` submission waiting for a semaphore slot, `Wait`
or `Cancel` waiting for the `sync.WaitGroup`, or a `finish` whose deferred
`done()` would block receiving from the semaphore channel).

Correspondence with the source (`src/errgroup.go`):
  * `g.ctx` / `g.cancel`  — the `cancelled` flag; `Done()` with a
    non-blocking read is `doneFired`.
  * `g.wg`                — the `pending` counter (`Add(1)` on submission,
    `Done()` when a subtask finishes, `Wait()` enabled at zero).
  * `g.sem chan token`    — `Option Sem`: `none` is a nil channel (no limit);
    `some ⟨cap, occupied⟩` is a buffered channel of capacity `cap` currently
    holding `occupied` tokens.  Sends/receives on the buffered channel are
    modelled as a counting semaphore: a send is enabled iff `occupied < cap`,
    a receive iff `0 < occupied`.  (The sender/receiver rendezvous of an
    unbuffered channel only becomes observable in executions that violate
    `SetLimit`'s documented precondition.)
  * `g.errOnce` / `g.err` — `errOnceDone` and `err`.
  * a goroutine spawned by `Go`/`TryGo` whose function will return the fixed
    error `r : Option ε` (`none` = nil error) — a `Task` in `running`;
    `Event.finish id` is that goroutine running `f`, the `errOnce.Do` body,
    and the deferred `done()`.
-/

namespace Errgroup

/-- The buffered channel `g.sem chan token`: its capacity (`cap(g.sem)`) and
the number of tokens currently in it (`len(g.sem)`). -/
structure Sem where
  cap : Nat
  occupied : Nat
deriving DecidableEq, Repr

/-- A goroutine started by `Go`/`TryGo` and not yet finished: its submission
index and the fixed error its function will return (`none` = nil). -/
structure Task (ε : Type) where
  id : Nat
  result : Option ε
deriving DecidableEq, Repr

/-- The state of a `group`. -/
structure GroupState (ε : Type) where
  /-- whether `g.cancel()` has ever been called (the context is cancelled). -/
  cancelled : Bool
  /-- `g.err`. -/
  err : Option ε
  /-- whether the `g.errOnce.Do` body has run. -/
  errOnceDone : Bool
  /-- the `g.wg` counter. -/
  pending : Nat
  /-- `g.sem`; `none` is a nil channel. -/
  sem : Option Sem
  /-- goroutines started and not yet finished. -/
  running : List (Task ε)
  /-- next submission index (model bookkeeping only). -/
  nextId : Nat
deriving DecidableEq, Repr

/-- The state `New` returns: fresh cancellable context, nil semaphore,
no goroutines. -/
def initState (ε : Type) : GroupState ε :=
  { cancelled := false, err := none, errOnceDone := false, pending := 0,
    sem := none, running := [], nextId := 0 }

/-- One atomic step of an execution. -/
inductive Event (ε : Type) where
  /-- `g.Go(f)` where `f` will return the fixed error `r`. -/
  | go (r : Option ε)
  /-- `g.TryGo(f)` where `f` will return the fixed error `r`. -/
  | tryGo (r : Option ε)
  /-- the goroutine with submission index `id` runs to completion:
  `f` returns, the `errOnce.Do` body runs if `f` failed, then `done()`. -/
  | finish (id : Nat)
  /-- `g.SetLimit(n)`. -/
  | setLimit (n : Int)
  /-- the `g.cancel()` call at the top of `g.Cancel()`. -/
  | cancelFire
  /-- the `g.wg.Wait(); return g.err` tail of `g.Cancel()`. -/
  | cancelJoin
  /-- `g.Wait()`: `g.wg.Wait(); g.cancel(); return g.err`. -/
  | wait
deriving DecidableEq, Repr

/-- What a completed event returns to its caller. -/
inductive Outcome (ε : Type) where
  | unit
  | bool (b : Bool)
  | err (e : Option ε)
  | panicked
deriving DecidableEq, Repr

/-- The shared tail of `Go` and `TryGo` after the semaphore send:
`g.wg.Add(1)` and `go func() { ... }()` with the new semaphore value. -/
def spawn {ε : Type} (s : GroupState ε) (r : Option ε) (sem' : Option Sem) :
    GroupState ε :=
  { s with sem := sem', pending := s.pending + 1,
           running := s.running ++ [⟨s.nextId, r⟩], nextId := s.nextId + 1 }

/-- One step.  `none` means the event blocks (is not enabled) in this state. -/
def step {ε : Type} (s : GroupState ε) : Event ε → Option (GroupState ε × Outcome ε)
  | .go r =>
      match s.sem with
      | none => some (spawn s r none, .unit)
      | some sm =>
          if sm.occupied < sm.cap then
            some (spawn s r (some ⟨sm.cap, sm.occupied + 1⟩), .unit)
          else none
  | .tryGo r =>
      match s.sem with
      | none => some (spawn s r none, .bool true)
      | some sm =>
          if sm.occupied < sm.cap then
            some (spawn s r (some ⟨sm.cap, sm.occupied + 1⟩), .bool true)
          else some (s, .bool false)
  | .finish i =>
      match s.running.find? (fun t => t.id == i) with
      | none => none
      | some t =>
          let s1 : GroupState ε :=
            match t.result with
            | some e =>
                if s.errOnceDone then s
                else { s with err := some e, cancelled := true, errOnceDone := true }
            | none => s
          match s1.sem with
          | none =>
              some ({ s1 with pending := s1.pending - 1,
                              running := s1.running.eraseP (fun u => u.id == i) }, .unit)
          | some sm =>
              if 0 < sm.occupied then
                some ({ s1 with sem := some ⟨sm.cap, sm.occupied - 1⟩,
                                pending := s1.pending - 1,
                                running := s1.running.eraseP (fun u => u.id == i) }, .unit)
              else none
  | .setLimit n =>
      if n < 0 then some ({ s with sem := none }, .unit)
      else
        match s.sem with
        | none => some ({ s with sem := some ⟨n.toNat, 0⟩ }, .unit)
        | some sm =>
            if sm.occupied ≠ 0 then some (s, .panicked)
            else some ({ s with sem := some ⟨n.toNat, 0⟩ }, .unit)
  | .cancelFire => some ({ s with cancelled := true }, .unit)
  | .cancelJoin => if s.pending = 0 then some (s, .err s.err) else none
  | .wait =>
      if s.pending = 0 then some ({ s with cancelled := true }, .err s.err)
      else none

/-- Run a trace; `none` if some event blocks. -/
def runEvents {ε : Type} (s : GroupState ε) :
    List (Event ε) → Option (GroupState ε × List (Outcome ε))
  | [] => some (s, [])
  | e :: es =>
      match step s e with
      | none => none
      | some (s', o) =>
          match runEvents s' es with
          | none => none
          | some (s'', os) => some (s'', o :: os)

/-- `g.Done()` followed by a non-blocking receive: whether the context's done
channel is closed. -/
def doneFired {ε : Type} (s : GroupState ε) : Bool := s.cancelled

/-- The trace of `Go` submissions for a list of fixed subtask results. -/
def goAll {ε : Type} (rs : List (Option ε)) : List (Event ε) := rs.map .go

/-- The tasks created by submitting `rs`, with ids `k, k+1, ...`. -/
def tasksFrom {ε : Type} (k : Nat) : List (Option ε) → List (Task ε)
  | [] => []
  | r :: rs => ⟨k, r⟩ :: tasksFrom (k + 1) rs

/-- The fixed result of the running task with id `i` (`none` when absent or
when the task will succeed). -/
def resultOf {ε : Type} (ts : List (Task ε)) (i : Nat) : Option ε :=
  (ts.find? (fun t => t.id == i)).bind (fun t => t.result)

/-- The first non-nil subtask error in completion order `order`. -/
def firstFailure {ε : Type} (ts : List (Task ε)) : List Nat → Option ε
  | [] => none
  | i :: is =>
      match resultOf ts i with
      | some e => some e
      | none => firstFailure ts is

theorem find?_eraseP_ne {ε : Type} (ts : List (Task ε)) (i j : Nat) (h : j ≠ i) :
    (ts.eraseP (fun u => u.id == i)).find? (fun t => t.id == j)
      = ts.find? (fun t => t.id == j) := by
  induction ts with
  | nil => rfl
  | cons t ts ih =>
      by_cases hi : t.id = i
      · have h1 : (t.id == i) = true := by simp [hi]
        have h2 : (t.id == j) = false := by simp [hi]; omega
        simp [List.eraseP_cons, h1, List.find?_cons, h2]
      · have h1 : (t.id == i) = false := by simp [hi]
        by_cases hj : t.id = j
        · have h2 : (t.id == j) = true := by simp [hj]
          simp [List.eraseP_cons, h1, List.find?_cons, h2]
        · have h2 : (t.id == j) = false := by simp [hj]
          simp [List.eraseP_cons, h1, List.find?_cons, h2, ih]

theorem resultOf_eraseP_ne {ε : Type} (ts : List (Task ε)) (i j : Nat) (h : j ≠ i) :
    resultOf (ts.eraseP (fun u => u.id == i)) j = resultOf ts j := by
  simp [resultOf, find?_eraseP_ne ts i j h]

theorem firstFailure_eraseP {ε : Type} (ts : List (Task ε)) (i : Nat)
    (order : List Nat) (h : i ∉ order) :
    firstFailure (ts.eraseP (fun u => u.id == i)) order = firstFailure ts order := by
  induction order with
  | nil => rfl
  | cons j rest ih =>
      have hj : j ≠ i := fun hji => h (hji ▸ List.mem_cons_self j rest)
      have hrest : i ∉ rest := fun hr => h (List.mem_cons_of_mem j hr)
      simp only [firstFailure, resultOf_eraseP_ne ts i j hj, ih hrest]

theorem firstFailure_congr {ε : Type} (ts ts' : List (Task ε)) (order : List Nat)
    (h : ∀ j ∈ order, resultOf ts j = resultOf ts' j) :
    firstFailure ts order = firstFailure ts' order := by
  induction order with
  | nil => rfl
  | cons j rest ih =>
      simp only [firstFailure, h j (List.mem_cons_self j rest)]
      cases resultOf ts' j with
      | none => exact ih fun k hk => h k (List.mem_cons_of_mem j hk)
      | some e => rfl

theorem tasksFrom_find?_isSome {ε : Type} :
    ∀ (rs : List (Option ε)) (k i : Nat), k ≤ i → i < k + rs.length →
      ((tasksFrom k rs).find? (fun t => t.id == i)).isSome := by
  intro rs
  induction rs with
  | nil =>
      intro k i hk hi
      simp only [List.length_nil, Nat.add_zero] at hi
      exact absurd hi (Nat.not_lt.mpr hk)
  | cons r rs ih =>
      intro k i hk hi
      by_cases hik : i = k
      · subst hik; simp [tasksFrom, List.find?_cons]
      · have hk1 : k + 1 ≤ i := by omega
        have hlt : i < (k + 1) + rs.length := by
          simp only [List.length_cons] at hi; omega
        have hne : (k == i) = false := by simp; omega
        simpa [tasksFrom, List.find?_cons, hne] using ih (k + 1) i hk1 hlt

theorem tasksFrom_resultOf_head {ε : Type} (k : Nat) (r : Option ε)
    (rs : List (Option ε)) : resultOf (tasksFrom k (r :: rs)) k = r := by
  simp [tasksFrom, resultOf, List.find?_cons]

theorem tasksFrom_resultOf_ne {ε : Type} (k j : Nat) (r : Option ε)
    (rs : List (Option ε)) (h : j ≠ k) :
    resultOf (tasksFrom k (r :: rs)) j = resultOf (tasksFrom (k + 1) rs) j := by
  have hne : (k == j) = false := by simp; omega
  simp [tasksFrom, resultOf, List.find?_cons, hne]

theorem runEvents_append {ε : Type} :
    ∀ (as : List (Event ε)) (bs : List (Event ε)) (s : GroupState ε),
      runEvents s (as ++ bs)
        = match runEvents s as with
          | none => none
          | some (s', os) =>
              match runEvents s' bs with
              | none => none
              | some (s'', os') => some (s'', os ++ os') := by
  intro as
  induction as with
  | nil =>
      intro bs s
      simp only [List.nil_append, runEvents]
      cases runEvents s bs with
      | none => rfl
      | some p => obtain ⟨s', os⟩ := p; simp
  | cons a as ih =>
      intro bs s
      show runEvents s (a :: (as ++ bs)) = _
      simp only [runEvents]
      cases step s a with
      | none => rfl
      | some p =>
          obtain ⟨s', o⟩ := p
          dsimp only
          rw [ih bs s']
          cases runEvents s' as with
          | none => rfl
          | some q =>
              obtain ⟨s'', os⟩ := q
              dsimp only
              cases runEvents s'' bs with
              | none => rfl
              | some w => obtain ⟨s3, os'⟩ := w; simp

theorem runEvents_cons {ε : Type} {s : GroupState ε} {e : Event ε}
    {es : List (Event ε)} {s' : GroupState ε} {os : List (Outcome ε)}
    (h : runEvents s (e :: es) = some (s', os)) :
    ∃ s1 o os1, step s e = some (s1, o) ∧ runEvents s1 es = some (s', os1) ∧
      os = o :: os1 := by
  simp only [runEvents] at h
  cases hst : step s e with
  | none => rw [hst] at h; exact Option.noConfusion h
  | some p =>
      obtain ⟨s1, o⟩ := p
      rw [hst] at h
      dsimp only at h
      cases hr : runEvents s1 es with
      | none => rw [hr] at h; exact Option.noConfusion h
      | some q =>
          obtain ⟨s2, os2⟩ := q
          rw [hr] at h
          simp only [Option.some.injEq, Prod.mk.injEq] at h
          exact ⟨s1, o, os2, rfl, h.1 ▸ hr, h.2.symm⟩

theorem step_preserve_once_aux {ε : Type} (s : GroupState ε) (e : Event ε)
    (h1 : s.errOnceDone = true) :
    (step s e).elim True
      (fun p => p.1.err = s.err ∧ p.1.errOnceDone = true) := by
  cases e <;> simp only [step] <;> repeat' split
  all_goals simp_all [spawn]

/-- Once the `errOnce.Do` body has run, no step changes `g.err`, and the
once-flag stays set (`sync.Once` semantics in `group.Go`/`group.TryGo`). -/
theorem step_preserve_once {ε : Type} {s : GroupState ε} {e : Event ε}
    {s' : GroupState ε} {o : Outcome ε}
    (h1 : s.errOnceDone = true) (h2 : step s e = some (s', o)) :
    s'.err = s.err ∧ s'.errOnceDone = true := by
  have H := step_preserve_once_aux s e h1
  rw [h2] at H
  exact H

/-- Trace version of `step_preserve_once`. -/
theorem run_preserve_once {ε : Type} :
    ∀ (evs : List (Event ε)) (s s' : GroupState ε) (os : List (Outcome ε)),
      s.errOnceDone = true → runEvents s evs = some (s', os) →
      s'.err = s.err ∧ s'.errOnceDone = true := by
  intro evs
  induction evs with
  | nil =>
      intro s s' os h1 h2
      simp only [runEvents, Option.some.injEq, Prod.mk.injEq] at h2
      rw [← h2.1]; exact ⟨rfl, h1⟩
  | cons e es ih =>
      intro s s' os h1 h2
      obtain ⟨s1, o, os1, hst, hr, -⟩ := runEvents_cons h2
      have hp := step_preserve_once h1 hst
      have hq := ih s1 s' os1 hp.2 hr
      exact ⟨hq.1.trans hp.1, hq.2⟩

theorem step_finish_succ {ε : Type} {s : GroupState ε} {i : Nat} {t : Task ε}
    (hf : s.running.find? (fun u => u.id == i) = some t) (hr : t.result = none)
    (hsem : s.sem = none) :
    step s (.finish i)
      = some ({ s with pending := s.pending - 1,
                       running := s.running.eraseP (fun u => u.id == i) }, .unit) := by
  simp [step, hf, hr, hsem]

theorem step_finish_once {ε : Type} {s : GroupState ε} {i : Nat} {t : Task ε}
    (hf : s.running.find? (fun u => u.id == i) = some t) (hsem : s.sem = none)
    (hd : s.errOnceDone = true) :
    step s (.finish i)
      = some ({ s with pending := s.pending - 1,
                       running := s.running.eraseP (fun u => u.id == i) }, .unit) := by
  cases hr : t.result <;> simp [step, hf, hr, hsem, hd]

theorem step_finish_fail {ε : Type} {s : GroupState ε} {i : Nat} {t : Task ε}
    {e : ε} (hf : s.running.find? (fun u => u.id == i) = some t)
    (hr : t.result = some e) (hsem : s.sem = none) (hd : s.errOnceDone = false) :
    step s (.finish i)
      = some ({ s with err := some e, cancelled := true, errOnceDone := true,
                       pending := s.pending - 1,
                       running := s.running.eraseP (fun u => u.id == i) }, .unit) := by
  simp [step, hf, hr, hsem, hd]

/-- A run of completions after the `errOnce.Do` body has already fired:
every completion is a pure decrement, `g.err` and the cancellation state are
untouched. -/
theorem runFinish_once {ε : Type} :
    ∀ (order : List Nat) (s : GroupState ε),
      s.errOnceDone = true → s.sem = none →
      (∀ i ∈ order, ((s.running.find? (fun t => t.id == i)).isSome)) →
      order.Nodup →
      ∃ s', runEvents s (order.map .finish) = some (s', order.map fun _ => .unit) ∧
        s'.err = s.err ∧ s'.errOnceDone = true ∧ s'.cancelled = s.cancelled ∧
        s'.sem = none ∧ s'.pending = s.pending - order.length := by
  intro order
  induction order with
  | nil =>
      intro s h1 h2 h3 h4
      exact ⟨s, rfl, rfl, h1, rfl, h2, by simp⟩
  | cons i rest ih =>
      intro s h1 h2 h3 h4
      obtain ⟨t, ht⟩ := Option.isSome_iff_exists.mp (h3 i (List.mem_cons_self i rest))
      have hstep := step_finish_once ht h2 h1
      have hnodup := List.nodup_cons.mp h4
      obtain ⟨s', hrun, herr, hflag, hcanc, hsem, hpend⟩ :=
        ih { s with pending := s.pending - 1,
                    running := s.running.eraseP (fun u => u.id == i) }
          h1 h2
          (by
            intro j hj
            have hne : j ≠ i := fun hji => hnodup.1 (hji ▸ hj)
            show ((s.running.eraseP (fun u => u.id == i)).find?
                    (fun t => t.id == j)).isSome
            rw [find?_eraseP_ne s.running i j hne]
            exact h3 j (List.mem_cons_of_mem i hj))
          hnodup.2
      dsimp only at herr hflag hcanc hsem hpend
      refine ⟨s', ?_, herr, hflag, hcanc, hsem, ?_⟩
      · show runEvents s (.finish i :: rest.map .finish)
          = some (s', .unit :: rest.map fun _ => .unit)
        simp only [runEvents]
        rw [hstep]
        dsimp only
        rw [hrun]
      · simp only [List.length_cons]
        omega

/-- A run of completions starting with no recorded error: `g.err` ends as the
first non-nil result in completion order, and cancellation fires exactly when
such a result exists. -/
theorem runFinish_fresh {ε : Type} :
    ∀ (order : List Nat) (s : GroupState ε),
      s.errOnceDone = false → s.err = none → s.sem = none →
      (∀ i ∈ order, ((s.running.find? (fun t => t.id == i)).isSome)) →
      order.Nodup →
      ∃ s', runEvents s (order.map .finish) = some (s', order.map fun _ => .unit) ∧
        s'.err = firstFailure s.running order ∧
        s'.errOnceDone = (firstFailure s.running order).isSome ∧
        s'.cancelled = (s.cancelled || (firstFailure s.running order).isSome) ∧
        s'.sem = none ∧ s'.pending = s.pending - order.length := by
  intro order
  induction order with
  | nil =>
      intro s h1 h2 h3 h4 h5
      exact ⟨s, rfl, h2, h1, by simp [firstFailure], h3, by simp⟩
  | cons i rest ih =>
      intro s h1 h2 h3 h4 h5
      obtain ⟨t, ht⟩ := Option.isSome_iff_exists.mp (h4 i (List.mem_cons_self i rest))
      have hnodup := List.nodup_cons.mp h5
      have hres : resultOf s.running i = t.result := by simp [resultOf, ht]
      have hfindrest : ∀ j ∈ rest,
          (((s.running.eraseP (fun u => u.id == i)).find?
              (fun t => t.id == j)).isSome) := by
        intro j hj
        have hne : j ≠ i := fun hji => hnodup.1 (hji ▸ hj)
        rw [find?_eraseP_ne s.running i j hne]
        exact h4 j (List.mem_cons_of_mem i hj)
      cases hr : t.result with
      | none =>
          have hstep := step_finish_succ ht hr h3
          obtain ⟨s', hrun, herr, hflag, hcanc, hsem, hpend⟩ :=
            ih { s with pending := s.pending - 1,
                        running := s.running.eraseP (fun u => u.id == i) }
              h1 h2 h3 hfindrest hnodup.2
          dsimp only at herr hflag hcanc hsem hpend
          have hff : firstFailure s.running (i :: rest)
              = firstFailure s.running rest := by
            simp [firstFailure, hres, hr]
          have hff2 : firstFailure (s.running.eraseP (fun u => u.id == i)) rest
              = firstFailure s.running rest :=
            firstFailure_eraseP s.running i rest hnodup.1
          refine ⟨s', ?_, ?_, ?_, ?_, hsem, ?_⟩
          · show runEvents s (.finish i :: rest.map .finish)
              = some (s', .unit :: rest.map fun _ => .unit)
            simp only [runEvents]
            rw [hstep]
            dsimp only
            rw [hrun]
          · rw [hff]
            exact herr.trans hff2
          · rw [hff]
            exact hflag.trans (congrArg Option.isSome hff2)
          · rw [hff]
            exact hcanc.trans (by rw [hff2])
          · simp only [List.length_cons]
            omega
      | some e =>
          have hstep := step_finish_fail ht hr h3 h1
          obtain ⟨s', hrun, herr, hflag, hcanc, hsem, hpend⟩ :=
            runFinish_once rest
              { s with err := some e, cancelled := true, errOnceDone := true,
                       pending := s.pending - 1,
                       running := s.running.eraseP (fun u => u.id == i) }
              rfl h3 hfindrest hnodup.2
          dsimp only at herr hflag hcanc hsem hpend
          have hff : firstFailure s.running (i :: rest) = some e := by
            simp [firstFailure, hres, hr]
          refine ⟨s', ?_, ?_, ?_, ?_, hsem, ?_⟩
          · show runEvents s (.finish i :: rest.map .finish)
              = some (s', .unit :: rest.map fun _ => .unit)
            simp only [runEvents]
            rw [hstep]
            dsimp only
            rw [hrun]
          · rw [herr, hff]
          · rw [hflag, hff]; rfl
          · rw [hcanc, hff]; simp
          · simp only [List.length_cons]
            omega

theorem step_wait_zero {ε : Type} {s : GroupState ε} (h : s.pending = 0) :
    step s .wait = some ({ s with cancelled := true }, .err s.err) := by
  simp [step, h]

/-- Submitting every result in `rs` through `Go` with a nil semaphore: each
submission spawns a goroutine and increments the wait counter. -/
theorem runGoAll {ε : Type} :
    ∀ (rs : List (Option ε)) (s : GroupState ε), s.sem = none →
      runEvents s (goAll rs)
        = some ({ s with pending := s.pending + rs.length,
                         running := s.running ++ tasksFrom s.nextId rs,
                         nextId := s.nextId + rs.length },
                rs.map fun _ => .unit) := by
  intro rs
  induction rs with
  | nil =>
      intro s h
      simp [goAll, runEvents, tasksFrom]
  | cons r rs ih =>
      intro s h
      show runEvents s (.go r :: goAll rs) = _
      simp only [runEvents]
      have hstep : step s (.go r) = some (spawn s r none, .unit) := by
        simp [step, h]
      rw [hstep]
      dsimp only
      rw [ih (spawn s r none) rfl]
      simp only [spawn, tasksFrom, Option.some.injEq, Prod.mk.injEq, List.map_cons,
        GroupState.mk.injEq, List.length_cons]
      repeat' apply And.intro
      all_goals first
        | rfl
        | omega
        | exact h.symm
        | exact trivial
        | simp [List.append_assoc]

theorem firstFailure_range' {ε : Type} :
    ∀ (rs : List (Option ε)) (k : Nat),
      firstFailure (tasksFrom k rs) (List.range' k rs.length) = rs.findSome? id := by
  intro rs
  induction rs with
  | nil => intro k; rfl
  | cons r rs ih =>
      intro k
      rw [List.length_cons, List.range'_succ]
      simp only [firstFailure, tasksFrom_resultOf_head]
      cases r with
      | some e => rfl
      | none =>
          rw [firstFailure_congr (tasksFrom k (none :: rs)) (tasksFrom (k + 1) rs)
                (List.range' (k + 1) rs.length) ?_]
          · rw [ih (k + 1)]
            rfl
          · intro j hj
            have hk : k + 1 ≤ j := (List.mem_range'_1.mp hj).1
            exact tasksFrom_resultOf_ne k j none rs (by omega)

/-- C1 (counterexample): submit two subtasks whose fixed errors are `some 1`
and `some 2` in that submission order; if the second goroutine completes
first, `Wait` returns `some 2`, not the first non-empty error `some 1` in
submission order.  The claim's "first subtask by submission order" is false
for this interleaving. -/
theorem c1_counterexample :
    (runEvents (initState Nat)
        [Event.go (some 1), Event.go (some 2), Event.finish 1, Event.finish 0,
         Event.wait]).map (fun p => p.2)
      = some [Outcome.unit, Outcome.unit, Outcome.unit, Outcome.unit,
              Outcome.err (some 2)]
    ∧ ([some 1, some 2] : List (Option Nat)).findSome? id = some 1
    ∧ (some 2 : Option Nat) ≠ some 1 := by
  refine ⟨by decide, by decide, by decide⟩

/-- C1 (amended): for every sequence of `N` submitted subtasks each returning
a fixed error, and every completion order of the `N` goroutines, `Wait`
returns the error of the first subtask *in completion order* whose returned
error is non-empty (empty if every subtask returned empty, including `N = 0`),
and fires the done signal.  When goroutines complete in submission order
(`order = List.range N`), that error is the first non-empty error by
submission order, `rs.findSome? id`. -/
theorem c1_wait_returns_first_error_in_completion_order {ε : Type}
    (rs : List (Option ε)) (order : List Nat)
    (hperm : order.Perm (List.range rs.length)) :
    (runEvents (initState ε)
        (goAll rs ++ (order.map Event.finish ++ [Event.wait]))).map
        (fun p => (p.2, doneFired p.1))
      = some ((rs.map fun _ => Outcome.unit) ++
              ((order.map fun _ => Outcome.unit) ++
               [Outcome.err (firstFailure (tasksFrom 0 rs) order)]), true)
    ∧ firstFailure (tasksFrom 0 rs) (List.range rs.length) = rs.findSome? id := by
  have hlen : order.length = rs.length := by simpa using hperm.length_eq
  have hnodup : order.Nodup := hperm.nodup_iff.mpr (List.nodup_range _)
  obtain ⟨s', hrun, herr, hflag, hcanc, hsem, hpend⟩ :=
    runFinish_fresh order
      { initState ε with
          pending := (initState ε).pending + rs.length,
          running := (initState ε).running ++ tasksFrom (initState ε).nextId rs,
          nextId := (initState ε).nextId + rs.length }
      rfl rfl rfl
      (by
        intro i hi
        have hir : i ∈ List.range rs.length := hperm.mem_iff.mp hi
        have hilt : i < rs.length := List.mem_range.mp hir
        show ((tasksFrom 0 rs).find? (fun t => t.id == i)).isSome
        exact tasksFrom_find?_isSome rs 0 i (Nat.zero_le i) (by omega))
      hnodup
  have hp0 : s'.pending = 0 := by
    rw [hpend]
    dsimp only [initState]
    omega
  have hwait : runEvents s' [Event.wait]
      = some ({ s' with cancelled := true }, [Outcome.err s'.err]) := by
    simp [runEvents, step_wait_zero hp0]
  have hfull : runEvents (initState ε)
      (goAll rs ++ (order.map Event.finish ++ [Event.wait]))
      = some ({ s' with cancelled := true },
              (rs.map fun _ => Outcome.unit) ++
              ((order.map fun _ => Outcome.unit) ++ [Outcome.err s'.err])) := by
    rw [runEvents_append (goAll rs) (order.map Event.finish ++ [Event.wait])
      (initState ε)]
    rw [runGoAll rs (initState ε) rfl]
    dsimp only
    rw [runEvents_append (order.map Event.finish) [Event.wait] _]
    rw [hrun]
    dsimp only
    rw [hwait]
  constructor
  · rw [hfull]
    simp only [Option.map_some', doneFired]
    rw [herr]
    exact rfl
  · rw [List.range_eq_range']
    exact firstFailure_range' rs 0

/-- Witness for C1's theorem at `rs = [none, some 5]`, `order = [1, 0]`. -/
theorem c1_witness :
    (runEvents (initState Nat)
        (goAll [none, some 5] ++ ([1, 0].map Event.finish ++ [Event.wait]))).map
        (fun p => (p.2, doneFired p.1))
      = some (([none, some 5].map fun _ => Outcome.unit) ++
              (([1, 0].map fun _ => Outcome.unit) ++
               [Outcome.err (firstFailure (tasksFrom 0 [none, some 5]) [1, 0])]),
              true)
    ∧ firstFailure (tasksFrom 0 [none, some 5]) (List.range 2)
        = [none, some 5].findSome? id :=
  c1_wait_returns_first_error_in_completion_order [none, some 5] [1, 0]
    (by decide)

theorem step_finish_once_frame_aux {ε : Type} (s : GroupState ε) (i : Nat)
    (h1 : s.errOnceDone = true) :
    (step s (.finish i)).elim True
      (fun p => p.1.err = s.err ∧ p.1.cancelled = s.cancelled ∧
        p.1.errOnceDone = true) := by
  simp only [step]
  repeat' split
  all_goals simp_all

/-- C2: `firstError` is written at most once over the whole lifetime of a
`group`: once the `errOnce.Do` body has run (`errOnceDone`), any further
events leave `g.err` unchanged and the once-flag set, and in particular a
later subtask completing with a non-nil error neither overwrites `g.err` nor
changes the cancellation state again. -/
theorem c2_first_error_written_at_most_once {ε : Type} (s : GroupState ε) :
    (∀ (evs : List (Event ε)) (s' : GroupState ε) (os : List (Outcome ε)),
        s.errOnceDone = true → runEvents s evs = some (s', os) →
        s'.err = s.err ∧ s'.errOnceDone = true)
    ∧ (∀ (i : Nat) (s' : GroupState ε) (o : Outcome ε),
        s.errOnceDone = true → step s (.finish i) = some (s', o) →
        s'.err = s.err ∧ s'.cancelled = s.cancelled ∧ s'.errOnceDone = true) := by
  constructor
  · intro evs s' os h1 h2
    exact run_preserve_once evs s s' os h1 h2
  · intro i s' o h1 h2
    have H := step_finish_once_frame_aux s i h1
    rw [h2] at H
    exact H

/-- Witness for C2 at a state whose error is already recorded and one
failing goroutine still running: its completion changes nothing. -/
theorem c2_witness :
    ({ cancelled := true, err := some 7, errOnceDone := true, pending := 0,
       sem := none, running := [], nextId := 1 } : GroupState Nat).err
        = ({ cancelled := true, err := some 7, errOnceDone := true, pending := 1,
             sem := none, running := [⟨0, some 9⟩], nextId := 1 } :
            GroupState Nat).err
    ∧ ({ cancelled := true, err := some 7, errOnceDone := true, pending := 0,
         sem := none, running := [], nextId := 1 } : GroupState Nat).errOnceDone
        = true :=
  (c2_first_error_written_at_most_once
      ({ cancelled := true, err := some 7, errOnceDone := true, pending := 1,
         sem := none, running := [⟨0, some 9⟩], nextId := 1 } : GroupState Nat)).1
    [Event.finish 0]
    { cancelled := true, err := some 7, errOnceDone := true, pending := 0,
      sem := none, running := [], nextId := 1 }
    [Outcome.unit] rfl (by decide)

/-- C3 (counterexample): with one subtask running and no capacity limit ever
configured (`g.sem == nil`), `SetLimit(5)` returns normally (outcome `unit`,
not `panicked`), because the panic guard is `len(g.sem) != 0` and the length
of a nil channel is 0.  This contradicts the claim that `SetLimit` panics
whenever at least one subtask is running, regardless of the argument. -/
theorem c3_counterexample :
    (runEvents (initState Nat) [Event.go none]).map
        (fun p => p.1.running.length) = some 1
    ∧ (runEvents (initState Nat) [Event.go none, Event.setLimit 5]).map
        (fun p => p.2) = some [Outcome.unit, Outcome.unit]
    ∧ (runEvents (initState Nat) [Event.go none, Event.setLimit (-1)]).map
        (fun p => p.2) = some [Outcome.unit, Outcome.unit] := by
  refine ⟨by decide, by decide, by decide⟩

/-- C3 (amended): `SetLimit(n)` panics iff `n` is non-negative and the
current semaphore channel is non-nil with at least one token in it (at least
one slot-holding subtask); with a negative `n`, or a nil semaphore, it
returns normally whatever is running. -/
theorem c3_setlimit_panics_iff {ε : Type} (s : GroupState ε) (n : Int) :
    step s (.setLimit n) = some (s, .panicked)
      ↔ 0 ≤ n ∧ ∃ sm, s.sem = some sm ∧ sm.occupied ≠ 0 := by
  by_cases hn : n < 0
  · simp [step, hn]
    try omega
  · cases hs : s.sem with
    | none => simp [step, hn, hs]
    | some sm =>
        by_cases ho : sm.occupied = 0
        · simp [step, hn, hs, ho]
        · simp [step, hn, hs, ho]
          omega

theorem step_zero_limit_aux {ε : Type} (s : GroupState ε) (e : Event ε)
    (h1 : s.sem = some ⟨0, 0⟩) (h2 : s.running = [])
    (h3 : ∀ n, e ≠ Event.setLimit n) :
    (step s e).elim True
      (fun p => p.1.sem = some ⟨0, 0⟩ ∧ p.1.running = []) := by
  cases e with
  | setLimit n => exact absurd rfl (h3 n)
  | go r => simp only [step]; repeat' split
            all_goals simp_all
  | tryGo r => simp only [step]; repeat' split
               all_goals simp_all
  | finish i => simp only [step]; repeat' split
                all_goals simp_all
  | cancelFire => simp only [step]; exact ⟨h1, h2⟩
  | cancelJoin => simp only [step]; split
                  · exact ⟨h1, h2⟩
                  · exact trivial
  | wait => simp only [step]; split
            · exact ⟨h1, h2⟩
            · exact trivial

theorem runZeroLimit_preserved {ε : Type} :
    ∀ (evs : List (Event ε)) (s s' : GroupState ε) (os : List (Outcome ε)),
      s.sem = some ⟨0, 0⟩ → s.running = [] →
      (∀ n, Event.setLimit n ∉ evs) → runEvents s evs = some (s', os) →
      s'.sem = some ⟨0, 0⟩ ∧ s'.running = [] := by
  intro evs
  induction evs with
  | nil =>
      intro s s' os h1 h2 h3 h4
      simp only [runEvents, Option.some.injEq, Prod.mk.injEq] at h4
      rw [← h4.1]; exact ⟨h1, h2⟩
  | cons e es ih =>
      intro s s' os h1 h2 h3 h4
      obtain ⟨s1, o, os1, hst, hr, -⟩ := runEvents_cons h4
      have he : ∀ n, e ≠ Event.setLimit n := by
        intro n hn
        exact h3 n (hn ▸ List.mem_cons_self e es)
      have H := step_zero_limit_aux s e h1 h2 he
      rw [hst] at H
      exact ih s1 s' os1 H.1 H.2
        (fun n hn => h3 n (List.mem_cons_of_mem e hn)) hr

/-- C4: with the limit set to 0 (`g.sem` a fresh zero-capacity channel) and
no goroutines running, every `TryGo` returns `false` leaving the state
unchanged (so any number of attempts fails), every `Go` blocks, and this
persists over any events that do not call `SetLimit`; raising the limit to a
positive value or removing it with a negative one re-enables `Go`. -/
theorem c4_zero_limit_blocks {ε : Type} (s : GroupState ε)
    (hsem : s.sem = some ⟨0, 0⟩) (hrun : s.running = []) :
    (∀ r : Option ε, step s (.tryGo r) = some (s, .bool false))
    ∧ (∀ r : Option ε, step s (.go r) = none)
    ∧ (∀ (evs : List (Event ε)) (s' : GroupState ε) (os : List (Outcome ε)),
        (∀ n, Event.setLimit n ∉ evs) → runEvents s evs = some (s', os) →
        (∀ r : Option ε, step s' (.go r) = none)
        ∧ (∀ r : Option ε, step s' (.tryGo r) = some (s', .bool false)))
    ∧ (∀ (n : Int) (r : Option ε), 1 ≤ n →
        (runEvents s [Event.setLimit n, Event.go r]).isSome = true)
    ∧ (∀ r : Option ε,
        (runEvents s [Event.setLimit (-1), Event.go r]).isSome = true) := by
  refine ⟨?_, ?_, ?_, ?_, ?_⟩
  · intro r; simp [step, hsem]
  · intro r; simp [step, hsem]
  · intro evs s' os hns hrunev
    obtain ⟨h1', h2'⟩ := runZeroLimit_preserved evs s s' os hsem hrun hns hrunev
    constructor
    · intro r; simp [step, h1']
    · intro r; simp [step, h1']
  · intro n r hn
    have hn0 : ¬ (n < 0) := by omega
    have hpos : 0 < n.toNat := by omega
    simp [runEvents, step, hsem, hn0, hpos]
  · intro r
    simp [runEvents, step, hsem]

/-- Witness for C4 at a concrete zero-limit state. -/
theorem c4_witness :
    step ({ cancelled := false, err := none, errOnceDone := false, pending := 0,
            sem := some ⟨0, 0⟩, running := [], nextId := 0 } : GroupState Nat)
        (.tryGo (some 3))
      = some ({ cancelled := false, err := none, errOnceDone := false,
                pending := 0, sem := some ⟨0, 0⟩, running := [], nextId := 0 },
              .bool false)
    ∧ step ({ cancelled := false, err := none, errOnceDone := false,
              pending := 0, sem := some ⟨0, 0⟩, running := [], nextId := 0 } :
              GroupState Nat) (.go (some 3)) = none :=
  ⟨(c4_zero_limit_blocks _ rfl rfl).1 (some 3),
   (c4_zero_limit_blocks _ rfl rfl).2.1 (some 3)⟩

/-- C5: when no capacity limit is configured (`g.sem == nil`), `TryGo` takes
exactly the same step as `Go` — same spawned goroutine, same wait-counter
increment, hence the same first-error and cancellation behaviour when the
subtask later finishes — and returns `true`. -/
theorem c5_trygo_unbounded_equals_go {ε : Type} (s : GroupState ε)
    (r : Option ε) (hsem : s.sem = none) :
    step s (.go r) = some (spawn s r none, .unit)
    ∧ step s (.tryGo r) = some (spawn s r none, .bool true) := by
  constructor <;> simp [step, hsem]

/-- Witness for C5 at the fresh group and a failing subtask. -/
theorem c5_witness :
    step (initState Nat) (.go (some 2))
      = some (spawn (initState Nat) (some 2) none, .unit)
    ∧ step (initState Nat) (.tryGo (some 2))
      = some (spawn (initState Nat) (some 2) none, .bool true) :=
  c5_trygo_unbounded_equals_go (initState Nat) (some 2) rfl

/-- Whether an event submits only a succeeding subtask (or is not a
submission at all). -/
def submitsNil {ε : Type} : Event ε → Bool
  | .go r => r.isNone
  | .tryGo r => r.isNone
  | _ => true

theorem step_no_fail_aux {ε : Type} (s : GroupState ε) (e : Event ε)
    (h1 : s.err = none) (h2 : ∀ t ∈ s.running, t.result = none)
    (h3 : submitsNil e = true) :
    (step s e).elim True
      (fun p => p.1.err = none ∧ ∀ t ∈ p.1.running, t.result = none) := by
  cases e with
  | go r =>
      have hr : r = none := by
        simpa [submitsNil, Option.isNone_iff_eq_none] using h3
      subst hr
      simp only [step]
      repeat' split
      all_goals try exact trivial
      all_goals
        refine ⟨h1, ?_⟩
        intro t ht
        rcases List.mem_append.mp ht with hmem | hmem
        · exact h2 t hmem
        · rw [List.mem_singleton.mp hmem]
  | tryGo r =>
      have hr : r = none := by
        simpa [submitsNil, Option.isNone_iff_eq_none] using h3
      subst hr
      simp only [step]
      repeat' split
      all_goals try exact ⟨h1, h2⟩
      all_goals
        refine ⟨h1, ?_⟩
        intro t ht
        rcases List.mem_append.mp ht with hmem | hmem
        · exact h2 t hmem
        · rw [List.mem_singleton.mp hmem]
  | finish i =>
      simp only [step]
      cases hf : s.running.find? (fun u => u.id == i) with
      | none => exact trivial
      | some t =>
          have hres : t.result = none := h2 t (List.mem_of_find?_eq_some hf)
          dsimp only
          rw [hres]
          dsimp only
          repeat' split
          all_goals try exact trivial
          all_goals
            refine ⟨h1, ?_⟩
            intro u hu
            exact h2 u ((List.eraseP_sublist s.running).subset hu)
  | setLimit n =>
      simp only [step]
      repeat' split
      all_goals exact ⟨h1, h2⟩
  | cancelFire => exact ⟨h1, h2⟩
  | cancelJoin =>
      simp only [step]
      split
      · exact ⟨h1, h2⟩
      · exact trivial
  | wait =>
      simp only [step]
      split
      · exact ⟨h1, h2⟩
      · exact trivial

theorem runNoFail {ε : Type} :
    ∀ (evs : List (Event ε)) (s s' : GroupState ε) (os : List (Outcome ε)),
      s.err = none → (∀ t ∈ s.running, t.result = none) →
      evs.all submitsNil = true → runEvents s evs = some (s', os) →
      s'.err = none ∧ ∀ t ∈ s'.running, t.result = none := by
  intro evs
  induction evs with
  | nil =>
      intro s s' os h1 h2 h3 h4
      simp only [runEvents, Option.some.injEq, Prod.mk.injEq] at h4
      rw [← h4.1]; exact ⟨h1, h2⟩
  | cons e es ih =>
      intro s s' os h1 h2 h3 h4
      rw [List.all_cons, Bool.and_eq_true] at h3
      obtain ⟨s1, o, os1, hst, hr, -⟩ := runEvents_cons h4
      have H := step_no_fail_aux s e h1 h2 h3.1
      rw [hst] at H
      exact ih s1 s' os1 H.1 H.2 h3.2 hr

/-- C6: `Wait` blocks until the wait-counter reaches zero; once it is zero it
cancels the context (so a non-blocking read of `Done()` observes the fired
signal) and returns `g.err`; and along any trace in which every submitted
subtask returns nil, `g.err` stays empty. -/
theorem c6_wait_blocks_cancels_returns_first_error {ε : Type}
    (s : GroupState ε) :
    (s.pending ≠ 0 → step s .wait = none)
    ∧ (s.pending = 0 →
        (step s (Event.wait)).map (fun p => (p.2, doneFired p.1))
          = some (.err s.err, true))
    ∧ (∀ (evs : List (Event ε)) (s' : GroupState ε) (os : List (Outcome ε)),
        evs.all submitsNil = true →
        runEvents (initState ε) evs = some (s', os) → s'.err = none) := by
  refine ⟨?_, ?_, ?_⟩
  · intro h; simp [step, h]
  · intro h; simp [step, h, doneFired]
  · intro evs s' os h1 h2
    exact (runNoFail evs (initState ε) s' os rfl (by simp [initState]) h1 h2).1

/-- Witness for C6: a fresh group's `Wait` fires the done signal and returns
the empty error, while with one pending subtask `Wait` blocks. -/
theorem c6_witness :
    (step (initState Nat) (Event.wait)).map (fun p => (p.2, doneFired p.1))
      = some (.err none, true)
    ∧ step ({ cancelled := false, err := none, errOnceDone := false,
              pending := 1, sem := none, running := [⟨0, none⟩], nextId := 1 } :
             GroupState Nat) .wait = none :=
  ⟨(c6_wait_blocks_cancels_returns_first_error (initState Nat)).2.1 rfl,
   (c6_wait_blocks_cancels_returns_first_error _).1 (by decide)⟩

/-- C7: `Cancel` first fires the context cancellation (whatever the pending
count), then blocks until the wait-counter reaches zero, then returns `g.err`
as recorded at that point; it never writes `g.err`, so cancelling before any
failure returns the empty error with the done signal fired. -/
theorem c7_cancel_fires_then_joins {ε : Type} (s : GroupState ε) :
    step s .cancelFire = some ({ s with cancelled := true }, .unit)
    ∧ ({ s with cancelled := true } : GroupState ε).err = s.err
    ∧ (s.pending ≠ 0 → step s .cancelJoin = none)
    ∧ (s.pending = 0 → step s .cancelJoin = some (s, .err s.err))
    ∧ (s.pending = 0 →
        (runEvents s [Event.cancelFire, Event.cancelJoin]).map
            (fun p => (doneFired p.1, p.2))
          = some (true, [.unit, .err s.err])) := by
  refine ⟨rfl, rfl, ?_, ?_, ?_⟩
  · intro h; simp [step, h]
  · intro h; simp [step, h]
  · intro h
    simp [runEvents, step, h, doneFired]

/-- Witness for C7: cancelling a fresh group (no failure recorded, nothing
pending) fires the done signal and returns the empty error. -/
theorem c7_witness :
    (runEvents (initState Nat) [Event.cancelFire, Event.cancelJoin]).map
        (fun p => (doneFired p.1, p.2))
      = some (true, [.unit, .err none]) :=
  (c7_cancel_fires_then_joins (initState Nat)).2.2.2.2 rfl

/-- C8: `SetLimit(n)` with `n` negative sets `g.sem = nil`; afterwards `Go`
spawns without blocking on any slot and `TryGo` returns `true`, exactly the
unbounded behaviour. -/
theorem c8_negative_setlimit_removes_limit {ε : Type} (s : GroupState ε)
    (n : Int) (r : Option ε) (hn : n < 0) :
    step s (.setLimit n) = some ({ s with sem := none }, .unit)
    ∧ step ({ s with sem := none } : GroupState ε) (.go r)
        = some (spawn { s with sem := none } r none, .unit)
    ∧ step ({ s with sem := none } : GroupState ε) (.tryGo r)
        = some (spawn { s with sem := none } r none, .bool true) := by
  refine ⟨by simp [step, hn], by simp [step], by simp [step]⟩

/-- Witness for C8 at a state whose semaphore is full. -/
theorem c8_witness :
    step ({ cancelled := false, err := none, errOnceDone := false, pending := 2,
            sem := some ⟨2, 2⟩, running := [⟨0, none⟩, ⟨1, none⟩], nextId := 2 } :
            GroupState Nat) (.setLimit (-1))
      = some ({ cancelled := false, err := none, errOnceDone := false,
                pending := 2, sem := none, running := [⟨0, none⟩, ⟨1, none⟩],
                nextId := 2 }, .unit)
    ∧ step ({ cancelled := false, err := none, errOnceDone := false,
              pending := 2, sem := none, running := [⟨0, none⟩, ⟨1, none⟩],
              nextId := 2 } : GroupState Nat) (.go none)
      = some (spawn { cancelled := false, err := none, errOnceDone := false,
                      pending := 2, sem := none,
                      running := [⟨0, none⟩, ⟨1, none⟩], nextId := 2 } none none,
              .unit)
    ∧ step ({ cancelled := false, err := none, errOnceDone := false,
              pending := 2, sem := none, running := [⟨0, none⟩, ⟨1, none⟩],
              nextId := 2 } : GroupState Nat) (.tryGo none)
      = some (spawn { cancelled := false, err := none, errOnceDone := false,
                      pending := 2, sem := none,
                      running := [⟨0, none⟩, ⟨1, none⟩], nextId := 2 } none none,
              .bool true) :=
  c8_negative_setlimit_removes_limit _ (-1) none (by decide)

theorem step_limitK_aux {ε : Type} (s : GroupState ε) (e : Event ε) (K : Nat)
    (h1 : s.sem = some ⟨K, s.running.length⟩) (h2 : s.running.length ≤ K)
    (h3 : ∀ n, e ≠ Event.setLimit n) :
    (step s e).elim True
      (fun p => p.1.sem = some ⟨K, p.1.running.length⟩ ∧
        p.1.running.length ≤ K) := by
  cases e with
  | setLimit n => exact absurd rfl (h3 n)
  | go r =>
      simp only [step, h1]
      split
      · next hlt =>
          have hlt' : s.running.length < K := hlt
          constructor
          · simp [spawn]
          · simp only [spawn, List.length_append, List.length_cons,
              List.length_nil]
            omega
      · exact trivial
  | tryGo r =>
      simp only [step, h1]
      split
      · next hlt =>
          have hlt' : s.running.length < K := hlt
          constructor
          · simp [spawn]
          · simp only [spawn, List.length_append, List.length_cons,
              List.length_nil]
            omega
      · exact ⟨h1, h2⟩
  | finish i =>
      simp only [step]
      cases hf : s.running.find? (fun u => u.id == i) with
      | none => exact trivial
      | some t =>
          have hmem := List.mem_of_find?_eq_some hf
          have hpt := List.find?_some hf
          have hlen : (s.running.eraseP (fun u => u.id == i)).length
              = s.running.length - 1 := List.length_eraseP_of_mem hmem hpt
          have hpos : 0 < s.running.length :=
            List.length_pos.mpr (List.ne_nil_of_mem hmem)
          dsimp only
          have hs1 : (match t.result with
              | some e =>
                  if s.errOnceDone = true then s
                  else { s with err := some e, cancelled := true,
                                errOnceDone := true }
              | none => s).sem = s.sem := by
            repeat' split
            all_goals rfl
          have hs2 : (match t.result with
              | some e =>
                  if s.errOnceDone = true then s
                  else { s with err := some e, cancelled := true,
                                errOnceDone := true }
              | none => s).running = s.running := by
            repeat' split
            all_goals rfl
          rw [hs2, hs1, h1]
          dsimp only
          rw [if_pos hpos]
          exact ⟨by simp [hlen], by rw [hlen]; omega⟩
  | cancelFire => exact ⟨h1, h2⟩
  | cancelJoin =>
      simp only [step]
      split
      · exact ⟨h1, h2⟩
      · exact trivial
  | wait =>
      simp only [step]
      split
      · exact ⟨h1, h2⟩
      · exact trivial

/-- C9: with the semaphore configured at capacity `K` (and `SetLimit` not
called again), every reachable state keeps the number of running goroutines
at most `K`, and the semaphore occupancy equals that number.  Since every
intermediate point of a trace is the final state of one of its initial
segments, this bounds concurrency at every point of every interleaving. -/
theorem c9_limit_bounds_concurrency {ε : Type} (K : Nat) :
    ∀ (evs : List (Event ε)) (s s' : GroupState ε) (os : List (Outcome ε)),
      s.sem = some ⟨K, s.running.length⟩ → s.running.length ≤ K →
      (∀ n, Event.setLimit n ∉ evs) → runEvents s evs = some (s', os) →
      s'.running.length ≤ K ∧ s'.sem = some ⟨K, s'.running.length⟩ := by
  intro evs
  induction evs with
  | nil =>
      intro s s' os h1 h2 h3 h4
      simp only [runEvents, Option.some.injEq, Prod.mk.injEq] at h4
      rw [← h4.1]; exact ⟨h2, h1⟩
  | cons e es ih =>
      intro s s' os h1 h2 h3 h4
      obtain ⟨s1, o, os1, hst, hr, -⟩ := runEvents_cons h4
      have he : ∀ n, e ≠ Event.setLimit n := by
        intro n hn
        exact h3 n (hn ▸ List.mem_cons_self e es)
      have H := step_limitK_aux s e K h1 h2 he
      rw [hst] at H
      exact ih s1 s' os1 H.1 H.2
        (fun n hn => h3 n (List.mem_cons_of_mem e hn)) hr

/-- Witness for C9: capacity 1, four events including a refused `TryGo` and a
completed first goroutine; at most one goroutine runs at the end. -/
theorem c9_witness :
    ({ cancelled := false, err := none, errOnceDone := false, pending := 1,
       sem := some ⟨1, 1⟩, running := [⟨1, some 3⟩], nextId := 2 } :
        GroupState Nat).running.length ≤ 1
    ∧ ({ cancelled := false, err := none, errOnceDone := false, pending := 1,
         sem := some ⟨1, 1⟩, running := [⟨1, some 3⟩], nextId := 2 } :
          GroupState Nat).sem
        = some ⟨1, ({ cancelled := false, err := none, errOnceDone := false,
                      pending := 1, sem := some ⟨1, 1⟩,
                      running := [⟨1, some 3⟩], nextId := 2 } :
                      GroupState Nat).running.length⟩ :=
  c9_limit_bounds_concurrency 1
    [Event.go none, Event.tryGo (some 2), Event.finish 0, Event.go (some 3)]
    { cancelled := false, err := none, errOnceDone := false, pending := 0,
      sem := some ⟨1, 0⟩, running := [], nextId := 0 }
    { cancelled := false, err := none, errOnceDone := false, pending := 1,
      sem := some ⟨1, 1⟩, running := [⟨1, some 3⟩], nextId := 2 }
    [Outcome.unit, Outcome.bool false, Outcome.unit, Outcome.unit]
    rfl (by decide) (by intro n; simp) (by decide)

/-- C10: neither `Go` nor `TryGo` reads the cancellation state: their
enabledness and effect in a cancelled state are exactly those in the
uncancelled state (with the cancelled flag simply carried along), and a
subtask submitted after cancellation that fails while no error is recorded
still sets `g.err`. -/
theorem c10_submission_ignores_cancellation {ε : Type} (s : GroupState ε)
    (r : Option ε) (i : Nat) :
    step { s with cancelled := true } (.go r)
        = (step s (.go r)).map (fun p => ({ p.1 with cancelled := true }, p.2))
    ∧ step { s with cancelled := true } (.tryGo r)
        = (step s (.tryGo r)).map
            (fun p => ({ p.1 with cancelled := true }, p.2))
    ∧ (∀ (t : Task ε) (e : ε), s.errOnceDone = false → s.sem = none →
        s.running.find? (fun u => u.id == i) = some t → t.result = some e →
        (step s (.finish i)).map (fun p => p.1.err) = some (some e)) := by
  refine ⟨?_, ?_, ?_⟩
  · cases hs : s.sem with
    | none => simp [step, hs, spawn]
    | some sm =>
        by_cases hlt : sm.occupied < sm.cap <;> simp [step, hs, hlt, spawn]
  · cases hs : s.sem with
    | none => simp [step, hs, spawn]
    | some sm =>
        by_cases hlt : sm.occupied < sm.cap <;> simp [step, hs, hlt, spawn]
  · intro t e hflag hsem hfind hres
    rw [step_finish_fail hfind hres hsem hflag]
    rfl

/-- Witness for C10: in an already-cancelled group with no recorded error, a
running subtask's failure is still recorded. -/
theorem c10_witness :
    (step ({ cancelled := true, err := none, errOnceDone := false,
             pending := 1, sem := none, running := [⟨0, some 4⟩], nextId := 1 } :
             GroupState Nat) (.finish 0)).map (fun p => p.1.err)
      = some (some 4) :=
  (c10_submission_ignores_cancellation _ none 0).2.2 ⟨0, some 4⟩ 4
    rfl rfl rfl rfl

end Errgroup
